import Mathlib

/-!
Shallow embedding of the form-state container in `src/index.ts`
(classes `Form` and `FormCollection`).

Modelling conventions, used throughout:

* Field values.  TypeScript is dynamically typed: the source stores
  `options.fields[i].defaultValue` (of declared type `TValue | (() => TValue)`)
  directly into `Field.value` via an `as any` cast, so at runtime a field slot
  can hold either an ordinary value or an unapplied zero-argument factory
  function.  `JSVal V` mirrors that runtime universe: `.val v` is an ordinary
  value of the application value type `V`, `.fn f` is a zero-argument function
  value.
* Field records.  A TS `Form` keeps two records with identical keys:
  `options.fields` (the schema, `FieldOption` per key) and `_fields` (the
  state, `Field` per key).  We fuse the two co-indexed records into one list
  of pairs `FieldOption V × Field V`; list position plays the role of the
  field key.
* Functions of the form.  Schema entries such as `readOnly` functions and
  validators receive the owning form in TS.  They are modelled as pure
  functions of a `FormView`: the form's own mutable state such a callback
  can read — the field states (values and validation messages) and the
  `validated` / `readOnly` flags at the moment of the call.  (A callback
  reading the form's children cannot be represented in the inductive
  embedding; the `field` argument of a validator, a static schema entry, is
  not passed separately.)
* Schema entries `title`, `hint`, `required`, `placeHolderText` are carried
  by no operation that the development models, so they are omitted from the
  embedded schema record.
* Callbacks.  `onChange` / `onChangeForm` are modelled by presence flags;
  the mutating operations return, next to the new state, the list of
  callback invocations they perform (`FormEvent`).
* Object graph.  Children (`_childs`) and collection members (`_forms`) form
  a tree `Node`: `.form` is a `Form` object, `.coll` a `FormCollection`.
  In the source a collection member created by `addWithOptions` is pushed
  both into the collection's `_forms` and (through the `Form` constructor)
  into the parent's `_childs`; the tree keeps members under their collection
  node, which reaches them with the same recursive operations.  The
  member-registration aliasing itself is modelled separately, by object
  identity, in `FormCollectionState` below.
-/

namespace Forms

/-- A JavaScript runtime value held in a field slot: either an ordinary value
of the application value type `V`, or a zero-argument function value (an
unapplied factory default). -/
inductive JSVal (V : Type) where
  | val (v : V)
  | fn (f : Unit → V)

/-- `Field<TValue>` from the source: current value and last validation
message. -/
structure Field (V : Type) where
  value : JSVal V
  validation : String

/-- The view of the owning form that a schema callback receives in place of
the TS `form` argument: the form's own mutable state a pure callback can
read — the field states (values and validation messages, in key order) and
the `_validated` / `_readOnly` flags.  (The `validated` getter of the source
coincides with the own flag, see `claim_C1`, so exposing the flag exposes
the getter.) -/
structure FormView (V : Type) where
  fields : List (Field V)
  validated : Bool
  readOnly : Bool

/-- The `readOnly?: boolean | ((form) => boolean)` schema entry: a literal
boolean or a function of the owning form. -/
inductive ReadOnlyOpt (V : Type) where
  | lit (b : Bool)
  | fn (g : FormView V → Bool)

/-- `FieldOption` from the source, restricted to the entries read by the
modelled operations: `readOnly`, `defaultValue`, `validate`, `onChange`
(the last as a presence flag). -/
structure FieldOption (V : Type) where
  readOnly : Option (ReadOnlyOpt V)
  defaultValue : JSVal V
  validate : Option (JSVal V → FormView V → String)
  onChange : Bool

/-- The per-form mutable state of a `Form` object: the fused
schema-and-state field record, the `onChangeForm` presence flag, and the
`_validated` / `_readOnly` flags. -/
structure FormData (V : Type) where
  fields : List (FieldOption V × Field V)
  onChangeForm : Bool
  validated : Bool
  readOnly : Bool

/-- The object tree: a `Form` with its `_childs` list, or a `FormCollection`
with its `_forms` member list. -/
inductive Node (V : Type) where
  | form (d : FormData V) (childs : List (Node V))
  | coll (forms : List (Node V))

/-- A callback invocation performed by a mutating operation. -/
inductive FormEvent (V : Type) where
  | fieldChange (index : Nat) (value : JSVal V)
  | changeForm

variable {V : Type}

/-- Value snapshot of a field record (the data a form-function callback can
read). -/
def valuesOf (fs : List (FieldOption V × Field V)) : List (JSVal V) :=
  fs.map (fun p => p.2.value)

/-- Validation-message snapshot of a field record. -/
def messagesOf (fs : List (FieldOption V × Field V)) : List String :=
  fs.map (fun p => p.2.validation)

/-- The `form` view a schema callback receives, assembled from the fused
record and the flags at the moment of the call. -/
def mkView (fs : List (FieldOption V × Field V)) (validated readOnly : Bool) :
    FormView V :=
  { fields := fs.map (fun p => p.2), validated := validated, readOnly := readOnly }

/-- Value snapshot of a view. -/
def viewValues (w : FormView V) : List (JSVal V) :=
  w.fields.map (fun f => f.value)

/-- `Form.setDefaultFields`: for every schema key, store
`options.fields[i].defaultValue` (unevaluated, exactly as the `as any` cast
does) and the empty validation message. -/
def setDefaultFields (fs : List (FieldOption V × Field V)) :
    List (FieldOption V × Field V) :=
  fs.map (fun p => (p.1, { value := p.1.defaultValue, validation := "" }))

/-- Modelled from the spec: the evaluated default of a schema entry — a
zero-argument factory default is invoked and its result stored, a literal
default is stored as-is.  (The source itself never evaluates factories;
this definition renders the spec's words for comparison.) -/
def specEvalDefault (d : JSVal V) : JSVal V :=
  match d with
  | .val v => .val v
  | .fn f => .val (f ())

/-- The `Form` constructor's own-state initialization: default fields,
`_validated = false`, `_readOnly = false`.  (Registration into a parent's
`_childs` is modelled by the tree / by `FormCollectionState`.) -/
def FormData.new (schema : List (FieldOption V)) (onChangeForm : Bool) :
    FormData V :=
  { fields := schema.map (fun o => (o, { value := o.defaultValue, validation := "" }))
    onChangeForm := onChangeForm
    validated := false
    readOnly := false }

mutual

/-- The `validated` getter of `Form`, exactly as the source computes it:
`this._validated && this._childs.map(i => i.validated).length === this._childs.length`,
and of `FormCollection`:
`this._forms.length === this._forms.map(i => i.validated).length`. -/
def Node.validatedGetter : Node V → Bool
  | .form d childs => d.validated && ((validatedMap childs).length == childs.length)
  | .coll forms => forms.length == (validatedMap forms).length

/-- `childs.map(i => i.validated)`. -/
def validatedMap : List (Node V) → List Bool
  | [] => []
  | c :: cs => c.validatedGetter :: validatedMap cs

end

mutual

/-- The `valid` getter of `Form`: false if the `validated` getter is false;
false if some field's validation message is non-empty; otherwise
`this._childs.filter(i => i.valid).length === this._childs.length`.
For `FormCollection`:
`this._forms.length === this._forms.map(i => i.valid).length`. -/
def Node.validGetter : Node V → Bool
  | .form d childs =>
      if !(Node.validatedGetter (.form d childs)) then false
      else if !(d.fields.all (fun p => p.2.validation == "")) then false
      else (validFilter childs).length == childs.length
  | .coll forms => forms.length == (validMap forms).length

/-- `childs.filter(i => i.valid)`. -/
def validFilter : List (Node V) → List (Node V)
  | [] => []
  | c :: cs => if c.validGetter then c :: validFilter cs else validFilter cs

/-- `forms.map(i => i.valid)`. -/
def validMap : List (Node V) → List Bool
  | [] => []
  | c :: cs => c.validGetter :: validMap cs

end

/-- `Form.set(field, value)`: store the value; recompute the field's
validation message as
`this._validated && options.validate ? options.validate(value, options, this) : ""`
(at the point of the validator call the value is already written and the
field's message is still the old one, so the view the validator receives
carries the new value and the old message); then invoke the field's
`onChange` (if declared) and `onChangeForm` (if declared).  A key outside
the schema would throw in JS; the model returns the state unchanged there,
and every statement about `set` supplies a valid key. -/
def FormData.set (d : FormData V) (i : Nat) (v : JSVal V) :
    FormData V × List (FormEvent V) :=
  match d.fields[i]? with
  | none => (d, [])
  | some (o, f) =>
      let fields1 := d.fields.set i (o, { f with value := v })
      let msg :=
        if d.validated then
          match o.validate with
          | some vl => vl v (mkView fields1 d.validated d.readOnly)
          | none => ""
        else ""
      let fields2 := fields1.set i (o, { value := v, validation := msg })
      ({ d with fields := fields2 },
        (if o.onChange then [FormEvent.fieldChange i v] else []) ++
          (if d.onChangeForm then [FormEvent.changeForm] else []))

/-- The loop of the `fields` setter: for the key at position `i`,
`this._fields[i].value = fields[i] ?? this._fields[i].value` — a supplied
entry that is `null`/`undefined` (here `none`) leaves the prior value. -/
def bulkAssign (p : Nat → Option (JSVal V)) :
    Nat → List (FieldOption V × Field V) → List (FieldOption V × Field V)
  | _, [] => []
  | i, q :: rest =>
      (q.1, { q.2 with value := (p i).getD q.2.value }) :: bulkAssign p (i + 1) rest

/-- The `fields` setter of `Form`: assign values from the partial record
`p` over all schema keys, then call `handleChangeForm` (which invokes
`onChangeForm` when declared).  No validation message is touched and no
per-field `onChange` runs. -/
def FormData.setFieldsBulk (d : FormData V) (p : Nat → Option (JSVal V)) :
    FormData V × List (FormEvent V) :=
  ({ d with fields := bulkAssign p 0 d.fields },
    if d.onChangeForm then [FormEvent.changeForm] else [])

/-- `Form.isFieldReadOnly(field)`: true when the form-level `readOnly`
getter is true; else the field's literal `readOnly` entry when it is a
boolean; else its function entry evaluated on the form when it is a
function; else false. -/
def FormData.isFieldReadOnly (d : FormData V) (i : Nat) : Bool :=
  if d.readOnly then true
  else
    match d.fields[i]? with
    | some (o, _) =>
        match o.readOnly with
        | some (.lit b) => b
        | some (.fn g) => g (mkView d.fields d.validated d.readOnly)
        | none => false
    | none => false

mutual

/-- `Form.clearFields` / `FormCollection.clearFields`: reassign every field
from `setDefaultFields`, set `_validated = false`, recurse into every child
(a collection forwards to every member).  The source also fires
`handleChangeForm` afterwards; the tree operation models the state change. -/
def Node.clearFields : Node V → Node V
  | .form d childs =>
      .form { d with fields := setDefaultFields d.fields, validated := false }
        (clearFieldsList childs)
  | .coll forms => .coll (clearFieldsList forms)

/-- `childs.map(i => i.clearFields())`. -/
def clearFieldsList : List (Node V) → List (Node V)
  | [] => []
  | c :: cs => c.clearFields :: clearFieldsList cs

end

/-- The field loop of `Form.validate`, processed in key order exactly as
the source's `for (let i in this._fields)`: each field's message is
recomputed by `options.validate ? options.validate(value, options, this) : ""`,
and the `this` the validator sees carries the messages already rewritten
for the fields before it, the old messages for the fields after it, and the
still-old `_validated` flag `b` (the source sets the flag only after the
loop); `acc` is the already-processed prefix of the record. -/
def validateLoop (b r : Bool) (acc : List (FieldOption V × Field V)) :
    List (FieldOption V × Field V) → List (FieldOption V × Field V)
  | [] => acc
  | q :: rest =>
      validateLoop b r
        (acc ++
          [(q.1,
            { value := q.2.value
              validation :=
                match q.1.validate with
                | some vl => vl q.2.value (mkView (acc ++ q :: rest) b r)
                | none => "" })])
        rest

mutual

/-- `Form.validate` / `FormCollection.validate`: recompute every field's
validation message from its validator (the loop running over the live form
state with the still-old `_validated` flag), then set `_validated = true`,
then recurse into every child (a collection forwards to every member and
has no own flag). -/
def Node.validate : Node V → Node V
  | .form d childs =>
      .form
        { d with fields := validateLoop d.validated d.readOnly [] d.fields,
                 validated := true }
        (validateList childs)
  | .coll forms => .coll (validateList forms)

/-- `childs.map(i => i.validate())`. -/
def validateList : List (Node V) → List (Node V)
  | [] => []
  | c :: cs => c.validate :: validateList cs

end

/-- A view holding given values with blank messages, a false `validated`
flag and a given read-only flag: the canonical representative of all views
sharing those values and that flag, used to state what a validator that
ignores messages and the flag computes. -/
def viewOfValues (vals : List (JSVal V)) (r : Bool) : FormView V :=
  { fields := vals.map (fun v => { value := v, validation := "" })
    validated := false
    readOnly := r }

/-- Canonical recomputation of one field's message from a fixed value
snapshot. -/
def canonOne (vals : List (JSVal V)) (r : Bool) (q : FieldOption V × Field V) :
    FieldOption V × Field V :=
  (q.1,
    { value := q.2.value
      validation :=
        match q.1.validate with
        | some vl => vl q.2.value (viewOfValues vals r)
        | none => "" })

/-- A validator insensitive to the data `validate()` itself rewrites: its
result depends only on its value argument and on the view's field values
and read-only flag, never on the validation messages or the `validated`
flag. -/
def StableValidator (vl : JSVal V → FormView V → String) : Prop :=
  ∀ (v : JSVal V) (w w' : FormView V),
    viewValues w = viewValues w' → w.readOnly = w'.readOnly → vl v w = vl v w'

/-- Every validator declared in the record is stable. -/
def GoodFields (fs : List (FieldOption V × Field V)) : Prop :=
  ∀ q ∈ fs, ∀ vl, q.1.validate = some vl → StableValidator vl

mutual

/-- The `readOnly` setter: a `Form` stores the flag and assigns it to every
child; a `FormCollection` assigns it to every member. -/
def Node.setReadOnly : Node V → Bool → Node V
  | .form d childs, b => .form { d with readOnly := b } (setReadOnlyList childs b)
  | .coll forms, b => .coll (setReadOnlyList forms b)

/-- `for (let i of childs) i.readOnly = b`. -/
def setReadOnlyList : List (Node V) → Bool → List (Node V)
  | [], _ => []
  | c :: cs, b => c.setReadOnly b :: setReadOnlyList cs b

end

mutual

/-- `P` holds of the own state of every `Form` object in the tree. -/
def AllForms (P : FormData V → Prop) : Node V → Prop
  | .form d childs => P d ∧ AllFormsList P childs
  | .coll forms => AllFormsList P forms

/-- `AllForms` over a child list. -/
def AllFormsList (P : FormData V → Prop) : List (Node V) → Prop
  | [] => True
  | c :: cs => AllForms P c ∧ AllFormsList P cs

end

/-- Object-identity view of a `FormCollection` attached to a parent `Form`:
`parentChilds` is the parent's `_childs` list and `members` the collection's
`_forms` list, both as lists of object identities (distinct objects have
distinct identities). -/
structure FormCollectionState where
  parentChilds : List Nat
  members : List Nat

/-- `FormCollection.addWithOptions`: `new Form(options, this.parent)` pushes
the fresh form (identity `newId`) onto the parent's `_childs`, then the
collection pushes it onto `_forms`. -/
def FormCollectionState.addWithOptions (s : FormCollectionState) (newId : Nat) :
    FormCollectionState :=
  { parentChilds := s.parentChilds ++ [newId]
    members := s.members ++ [newId] }

/-- `FormCollection.remove(form)`:
`this._forms = this._forms.filter(i => i !== form)`; the parent's `_childs`
is not touched. -/
def FormCollectionState.remove (s : FormCollectionState) (fid : Nat) :
    FormCollectionState :=
  { s with members := s.members.filter (fun j => j ≠ fid) }

/-- The own-state record of a `Form` node (`none` on a collection). -/
def Node.ownData? : Node V → Option (FormData V)
  | .form d _ => some d
  | .coll _ => none

/-! Concrete instances used to evaluate the getters and operations on
specific inputs.  The value type is `Int`. -/

/-- A form state with an empty schema and a given `_validated` flag. -/
def emptyData (validated : Bool) : FormData Int :=
  { fields := [], onChangeForm := false, validated := validated, readOnly := false }

/-- Leaf of a three-level tree: `_validated = false`. -/
def c1leaf : Node Int := .form (emptyData false) []

/-- Middle form: `_validated = true`, one child (the leaf). -/
def c1mid : Node Int := .form (emptyData true) [c1leaf]

/-- Root form: `_validated = true`, one child (the middle form). -/
def c1root : Node Int := .form (emptyData true) [c1mid]

/-- A member form whose `_validated` flag is false. -/
def c2member : Node Int := .form (emptyData false) []

/-- A collection holding the single unvalidated member. -/
def c2coll : Node Int := .coll [c2member]

/-- A factory default: the zero-argument function returning `5`. -/
def c3factory : Unit → Int := fun _ => 5

/-- A one-field schema whose `defaultValue` is the factory `c3factory`. -/
def c3schema : List (FieldOption Int) :=
  [{ readOnly := none, defaultValue := .fn c3factory, validate := none,
     onChange := false }]

/-- Schema entry of a plain field: literal default `0`, no validator. -/
def c4opt : FieldOption Int :=
  { readOnly := none, defaultValue := .val 0, validate := none, onChange := false }

/-- A form whose single field holds value `7` and the non-empty validation
message `"bad"`. -/
def c4form : Node Int :=
  .form
    { fields := [(c4opt, { value := .val 7, validation := "bad" })]
      onChangeForm := false, validated := true, readOnly := false } []

/-- The spec's example validator: `v => v < 18 ? "too young" : ""` (a
function value is treated as failing the age test); it ignores the form
view. -/
def c5validator : JSVal Int → FormView Int → String :=
  fun x _ =>
    match x with
    | .val v => if v < 18 then "too young" else ""
    | .fn _ => "too young"

/-- Schema entry of the validated field. -/
def c5opt : FieldOption Int :=
  { readOnly := none, defaultValue := .val 0, validate := some c5validator,
    onChange := false }

/-- A validated form (`_validated = true`) whose single field carries the
non-empty message `"too young"`. -/
def c5data : FormData Int :=
  { fields := [(c5opt, { value := .val 0, validation := "too young" })]
    onChangeForm := false, validated := true, readOnly := false }

/-- A pure validator that reads the owning form's `validated` flag, as the
TS contract `validate(value, field, form)` permits:
`(v, f, form) => form.validated ? "stale" : ""`. -/
def c10validator : JSVal Int → FormView Int → String :=
  fun _ w => if w.validated then "stale" else ""

/-- Schema entry declaring the flag-reading validator. -/
def c10opt : FieldOption Int :=
  { readOnly := none, defaultValue := .val 0, validate := some c10validator,
    onChange := false }

/-- A not-yet-validated one-field form with the flag-reading validator. -/
def c10form : Node Int :=
  .form
    { fields := [(c10opt, { value := .val 0, validation := "" })]
      onChangeForm := false, validated := false, readOnly := false } []

/-! Theorems. -/

/-- Claim C1: the claim demands that the aggregated `validated` getter be a
recursive AND over the subtree, so that a root whose descendant's flag is
false reports false.  The code computes
`_validated && _childs.map(i => i.validated).length === _childs.length`,
whose right conjunct is always true (`map` preserves length), so the getter
returns the node's own flag and ignores the children: on the three-level
tree whose leaf is unvalidated, the root getter still returns true. -/
theorem claim_C1 :
    Node.validatedGetter c1root = true ∧
    Node.validatedGetter c1mid = true ∧
    Node.validatedGetter c1leaf = false := by
  refine ⟨rfl, rfl, rfl⟩

/-- Claim C2: the claim demands that a collection's `valid` / `validated`
getters be true iff every member's aggregated getter is true.  The code
computes `_forms.length === _forms.map(i => i.valid).length` (and the same
for `validated`), which is always true, so a collection holding a single
member that is neither validated nor valid still reports both getters
true. -/
theorem claim_C2 :
    Node.validGetter c2coll = true ∧
    Node.validatedGetter c2coll = true ∧
    Node.validGetter c2member = false ∧
    Node.validatedGetter c2member = false := by
  refine ⟨rfl, rfl, rfl, rfl⟩

/-- Claim C3: the claim demands that a fresh `Form` evaluate a zero-argument
factory default by invocation and store its result.  `setDefaultFields`
stores `options.fields[i].defaultValue` itself (under an `as any` cast), so
for the one-field schema whose default is the factory `c3factory` the fresh
form holds the unapplied function value, not the invoked result `5` that the
claim requires; validation message and `validated` flag are as claimed. -/
theorem claim_C3 :
    valuesOf (FormData.new c3schema false).fields = [JSVal.fn c3factory] ∧
    messagesOf (FormData.new c3schema false).fields = [""] ∧
    (FormData.new c3schema false).validated = false ∧
    specEvalDefault (JSVal.fn c3factory) = JSVal.val 5 ∧
    JSVal.fn c3factory ≠ specEvalDefault (JSVal.fn c3factory) := by
  refine ⟨rfl, rfl, rfl, rfl, by simp [specEvalDefault]⟩

/-- Claim C4, counterexample: the claim states that `clearFields` leaves
every validation message unchanged.  On the form whose single field carries
the message `"bad"`, `clearFields` (which reassigns every field through
`setDefaultFields`) leaves the message `""`, not `"bad"`. -/
theorem claim_C4_counterexample :
    (Node.ownData? c4form).map (fun d => messagesOf d.fields) = some ["bad"] ∧
    (Node.ownData? c4form.clearFields).map (fun d => messagesOf d.fields) =
      some [""] ∧
    ("" : String) ≠ "bad" := by
  refine ⟨rfl, rfl, by decide⟩

/-- After `setDefaultFields`, every field holds its schema default and the
empty message. -/
theorem setDefaultFields_spec (fs : List (FieldOption V × Field V)) :
    ∀ q ∈ setDefaultFields fs,
      q.2.value = q.1.defaultValue ∧ q.2.validation = "" := by
  intro q hq
  simp only [setDefaultFields, List.mem_map] at hq
  obtain ⟨p, _, rfl⟩ := hq
  exact ⟨rfl, rfl⟩

mutual

/-- After `clearFields`, every form in the tree holds default values, empty
messages and a false `validated` flag. -/
theorem clearFields_resets (n : Node V) :
    AllForms
      (fun d =>
        (∀ q ∈ d.fields, q.2.value = q.1.defaultValue ∧ q.2.validation = "") ∧
          d.validated = false)
      n.clearFields := by
  match n with
  | .form d childs =>
      exact ⟨⟨setDefaultFields_spec d.fields, rfl⟩, clearFieldsList_resets childs⟩
  | .coll forms =>
      exact clearFieldsList_resets forms

/-- `clearFields_resets` over a child list. -/
theorem clearFieldsList_resets (l : List (Node V)) :
    AllFormsList
      (fun d =>
        (∀ q ∈ d.fields, q.2.value = q.1.defaultValue ∧ q.2.validation = "") ∧
          d.validated = false)
      (clearFieldsList l) := by
  match l with
  | [] => exact trivial
  | c :: cs => exact ⟨clearFields_resets c, clearFieldsList_resets cs⟩

end

/-- Claim C4, amended: `clearFields()` resets every field's value to its
schema default and sets the `validated` flag to false at the node and at
every descendant it recurses into — and, contrary to the original claim, it
also resets every field's validation message to the empty string (the reset
reassigns each field through `setDefaultFields`, which writes `""`). -/
theorem claim_C4 (n : Node V) :
    AllForms
      (fun d =>
        (∀ q ∈ d.fields, q.2.value = q.1.defaultValue ∧ q.2.validation = "") ∧
          d.validated = false)
      n.clearFields :=
  clearFields_resets n

mutual

/-- After assigning `readOnly := true` at a node, every form in its tree
has the flag set and reports every field read-only. -/
theorem setReadOnly_true_all (n : Node V) :
    AllForms (fun d => d.readOnly = true ∧ ∀ i, d.isFieldReadOnly i = true)
      (n.setReadOnly true) := by
  match n with
  | .form d childs =>
      refine ⟨⟨rfl, fun i => ?_⟩, setReadOnlyList_true_all childs⟩
      simp [FormData.isFieldReadOnly]
  | .coll forms => exact setReadOnlyList_true_all forms

/-- `setReadOnly_true_all` over a child list. -/
theorem setReadOnlyList_true_all (l : List (Node V)) :
    AllFormsList (fun d => d.readOnly = true ∧ ∀ i, d.isFieldReadOnly i = true)
      (setReadOnlyList l true) := by
  match l with
  | [] => exact trivial
  | c :: cs => exact ⟨setReadOnly_true_all c, setReadOnlyList_true_all cs⟩

end

/-- Claim C8: setting `readOnly = true` on a root sets the flag on the root
and transitively on every descendant form (a collection's setter forwards to
every member), after which `isFieldReadOnly` returns true for every field
index of every form in the tree, whatever the field's own schema read-only
entry. -/
theorem claim_C8 (n : Node V) :
    AllForms (fun d => d.readOnly = true ∧ ∀ i, d.isFieldReadOnly i = true)
      (n.setReadOnly true) :=
  setReadOnly_true_all n

/-- The values of a call-site view are the record's value snapshot. -/
theorem viewValues_mkView (fs : List (FieldOption V × Field V)) (b r : Bool) :
    viewValues (mkView fs b r) = valuesOf fs := by
  simp only [viewValues, mkView, valuesOf, List.map_map]
  rfl

/-- The canonical view holds exactly the given values. -/
theorem viewValues_viewOfValues (vals : List (JSVal V)) (r : Bool) :
    viewValues (viewOfValues vals r) = vals := by
  simp only [viewValues, viewOfValues, List.map_map]
  exact List.map_id vals

/-- `canonOne` keeps every field's value. -/
theorem valuesOf_map_canonOne (fs : List (FieldOption V × Field V))
    (vals : List (JSVal V)) (r : Bool) :
    valuesOf (fs.map (canonOne vals r)) = valuesOf fs := by
  simp only [valuesOf, List.map_map]
  rfl

/-- `canonOne` keeps every schema entry, so stability of the declared
validators is preserved. -/
theorem goodFields_map_canonOne {fs : List (FieldOption V × Field V)}
    (h : GoodFields fs) (vals : List (JSVal V)) (r : Bool) :
    GoodFields (fs.map (canonOne vals r)) := by
  intro q hq vl hvl
  rcases List.mem_map.mp hq with ⟨p, hp, rfl⟩
  exact h p hp vl hvl

/-- Canonical recomputation is idempotent on a record. -/
theorem map_canonOne_idem (fs : List (FieldOption V × Field V))
    (vals : List (JSVal V)) (r : Bool) :
    (fs.map (canonOne vals r)).map (canonOne vals r) = fs.map (canonOne vals r) := by
  rw [List.map_map]
  rfl

/-- Under stable validators, the field loop rewrites each position to its
canonical recomputation from the record's fixed value snapshot,
independently of the flag `b` and of the messages already in the record. -/
theorem validateLoop_canon (b r : Bool) (vals : List (JSVal V)) :
    ∀ (rest acc : List (FieldOption V × Field V)),
      GoodFields rest → valuesOf (acc ++ rest) = vals →
      validateLoop b r acc rest = acc ++ rest.map (canonOne vals r) := by
  intro rest
  induction rest with
  | nil =>
      intro acc _ _
      simp [validateLoop]
  | cons q rest' ih =>
      intro acc hgood hvals
      have hq :
          (match q.1.validate with
            | some vl => vl q.2.value (mkView (acc ++ q :: rest') b r)
            | none => "") =
          (match q.1.validate with
            | some vl => vl q.2.value (viewOfValues vals r)
            | none => "") := by
        cases hvl : q.1.validate with
        | none => rfl
        | some vl =>
            exact hgood q (List.mem_cons_self q rest') vl hvl q.2.value _ _
              (by rw [viewValues_mkView, viewValues_viewOfValues, hvals]) rfl
      have hg : GoodFields rest' :=
        fun p hp vl hvl => hgood p (List.mem_cons_of_mem q hp) vl hvl
      have hv : valuesOf ((acc ++ [canonOne vals r q]) ++ rest') = vals := by
        simp only [valuesOf, List.map_append, List.map_cons, List.map_nil] at hvals ⊢
        simpa [canonOne] using hvals
      simp only [validateLoop]
      rw [hq]
      show validateLoop b r (acc ++ [canonOne vals r q]) rest' =
        acc ++ (q :: rest').map (canonOne vals r)
      rw [ih (acc ++ [canonOne vals r q]) hg hv]
      simp

/-- The whole field loop of `validate` under stable validators. -/
theorem validateLoop_run (b r : Bool) (fs : List (FieldOption V × Field V))
    (h : GoodFields fs) :
    validateLoop b r [] fs = fs.map (canonOne (valuesOf fs) r) :=
  validateLoop_canon b r (valuesOf fs) fs [] h rfl

mutual

/-- Running `validate` twice equals running it once on any tree all of
whose validators are stable. -/
theorem validate_idem_of_stable :
    ∀ n : Node V, AllForms (fun d => GoodFields d.fields) n →
      n.validate.validate = n.validate
  | .form d childs, h => by
      obtain ⟨hd, hcs⟩ := h
      simp only [Node.validate]
      rw [validateLoop_run _ _ _ hd,
        validateLoop_run _ _ _ (goodFields_map_canonOne hd _ _),
        valuesOf_map_canonOne, map_canonOne_idem,
        validateList_idem_of_stable childs hcs]
  | .coll forms, h => by
      simp only [Node.validate]
      rw [validateList_idem_of_stable forms h]

/-- `validate_idem_of_stable` over a child list. -/
theorem validateList_idem_of_stable :
    ∀ l : List (Node V), AllFormsList (fun d => GoodFields d.fields) l →
      validateList (validateList l) = validateList l
  | [], _ => rfl
  | c :: cs, h => by
      obtain ⟨h1, h2⟩ := h
      simp only [validateList]
      rw [validate_idem_of_stable c h1, validateList_idem_of_stable cs h2]

end

/-- Claim C10, counterexample: with pure validators allowed to read the
owning form — as the TS signature `validate(value, field, form)` permits —
`validate()` is not idempotent: the flag-reading validator of `c10form`
sees `_validated = false` during the first call (the source sets the flag
only after the field loop) and `_validated = true` during the second, so
one call leaves the message `""` while two calls leave `"stale"`. -/
theorem claim_C10_counterexample :
    (Node.ownData? c10form.validate).map (fun d => messagesOf d.fields) =
      some [""] ∧
    (Node.ownData? c10form.validate.validate).map (fun d => messagesOf d.fields) =
      some ["stale"] ∧
    c10form.validate.validate ≠ c10form.validate := by
  refine ⟨rfl, rfl, fun h => ?_⟩
  have h2 : (some ["stale"] : Option (List String)) = some [""] := by
    calc (some ["stale"] : Option (List String))
        = (Node.ownData? c10form.validate.validate).map
            (fun d => messagesOf d.fields) := rfl
      _ = (Node.ownData? c10form.validate).map (fun d => messagesOf d.fields) := by
            rw [h]
      _ = some [""] := rfl
  exact absurd h2 (by decide)

/-- Claim C10, amended: on a tree whose validators are pure functions that
do not read the state `validate()` itself rewrites — each validator's
result depends only on its value argument and on the form's field values
and read-only flag, never on the validation messages or the `validated`
flag — calling `validate()` twice in immediate succession leaves every
field value, every validation message and every node's `validated` flag
exactly as one call does. -/
theorem claim_C10 (n : Node V)
    (h : AllForms (fun d => GoodFields d.fields) n) :
    n.validate.validate = n.validate :=
  validate_idem_of_stable n h

/-- The age validator ignores its view, hence is stable, and the one-field
form `c5data` declares no other validator. -/
theorem c5data_goodFields :
    AllForms (fun d => GoodFields d.fields) (Node.form c5data []) := by
  refine ⟨?_, trivial⟩
  intro q hq vl hvl
  simp only [c5data, List.mem_singleton] at hq
  subst hq
  have hv : c5validator = vl := Option.some.inj hvl
  subst hv
  intro v w w' _ _
  rfl

/-- Claim C10, witness: the amended theorem applied to the tree holding the
single form `c5data`, whose only validator is the view-ignoring age
validator. -/
theorem claim_C10_witness :
    AllForms (fun d => GoodFields d.fields) (Node.form c5data []) ∧
    (Node.form c5data []).validate.validate = (Node.form c5data []).validate :=
  ⟨c5data_goodFields, claim_C10 (Node.form c5data []) c5data_goodFields⟩

/-- Pointwise description of the bulk-assignment loop: position `i` of the
result pairs the unchanged schema entry with the prior field whose value is
replaced by the supplied entry when present. -/
theorem bulkAssign_getElem? (p : Nat → Option (JSVal V)) :
    ∀ (fs : List (FieldOption V × Field V)) (k i : Nat),
      (bulkAssign p k fs)[i]? =
        (fs[i]?).map
          (fun q => (q.1, { q.2 with value := (p (k + i)).getD q.2.value })) := by
  intro fs
  induction fs with
  | nil => intro k i; simp [bulkAssign]
  | cons q rest ih =>
      intro k i
      cases i with
      | zero => simp [bulkAssign]
      | succ j =>
          simp only [bulkAssign, List.getElem?_cons_succ]
          rw [ih (k + 1) j, show k + 1 + j = k + (j + 1) by omega]

/-- Claim C7: the bulk `fields` write assigns each key's value from the
partial record when its entry is present (neither null nor undefined) and
keeps the prior value otherwise; it leaves every validation message and the
`validated` flag unchanged, invokes no per-field `onChange` (the event list
holds no `fieldChange`), and fires `onChangeForm` exactly when declared. -/
theorem claim_C7 (d : FormData V) (p : Nat → Option (JSVal V)) :
    (∀ i : Nat, (d.setFieldsBulk p).1.fields[i]? =
        (d.fields[i]?).map
          (fun q => (q.1, { q.2 with value := (p i).getD q.2.value }))) ∧
    (∀ i : Nat, ((d.setFieldsBulk p).1.fields[i]?).map (fun q => q.2.validation) =
        (d.fields[i]?).map (fun q => q.2.validation)) ∧
    (d.setFieldsBulk p).1.validated = d.validated ∧
    (d.setFieldsBulk p).2 =
      if d.onChangeForm then [FormEvent.changeForm] else [] := by
  refine ⟨fun i => ?_, fun i => ?_, rfl, rfl⟩
  · simpa using bulkAssign_getElem? p d.fields 0 i
  · have h := bulkAssign_getElem? p d.fields 0 i
    show (bulkAssign p 0 d.fields)[i]?.map _ = _
    rw [h]
    cases d.fields[i]? <;> rfl

/-- Claim C6: `set(key, value)` stores the value, and the resulting message
for that field is the validator applied to the new value and the updated
form exactly when the form's own `validated` flag is true and the field
declares a validator; in every other case (flag false, or no validator) the
message is set to the empty string. -/
theorem claim_C6 (d : FormData V) (i : Nat) (v : JSVal V) (o : FieldOption V)
    (f : Field V) (h : d.fields[i]? = some (o, f)) :
    (((d.set i v).1.fields[i]?).map (fun q => q.2.value) = some v) ∧
    (∀ vl, o.validate = some vl → d.validated = true →
      ((d.set i v).1.fields[i]?).map (fun q => q.2.validation) =
        some (vl v (mkView (d.fields.set i (o, { f with value := v }))
          d.validated d.readOnly))) ∧
    (d.validated = false ∨ o.validate = none →
      ((d.set i v).1.fields[i]?).map (fun q => q.2.validation) = some "") := by
  have hi : i < d.fields.length := by
    by_contra hge
    rw [List.getElem?_eq_none (Nat.le_of_not_lt hge)] at h
    exact Option.noConfusion h
  simp only [FormData.set, h]
  rw [List.set_set, List.getElem?_set_eq_of_lt _ hi]
  refine ⟨rfl, fun vl hvl hval => ?_, fun hcase => ?_⟩
  · rw [hval, hvl]
    rfl
  · rcases hcase with hval | hvl
    · rw [hval]
      rfl
    · rw [hvl]
      cases d.validated <;> rfl

/-- Claim C6, witness: the theorem applied to the concrete validated
one-field form `c5data`, key `0`, new value `10`. -/
theorem claim_C6_witness :
    c5data.fields[0]? = some (c5opt, { value := .val 0, validation := "too young" }) ∧
    ((c5data.set 0 (.val 10)).1.fields[0]?).map (fun q => q.2.value) =
      some (JSVal.val 10) :=
  ⟨rfl,
    (claim_C6 c5data 0 (.val 10) c5opt
        { value := .val 0, validation := "too young" } rfl).1⟩

/-- Claim C5, counterexample: the claim states that on a validated form with
a non-empty message on field `F`, `set(F, newValue)` empties the message for
every `newValue`.  On the validated form `c5data` (message `"too young"`),
`set 0 10` with the under-18 validator recomputes—not clears—the message:
it is again `"too young"`. -/
theorem claim_C5_counterexample :
    c5data.validated = true ∧
    messagesOf c5data.fields = ["too young"] ∧
    messagesOf (c5data.set 0 (.val 10)).1.fields = ["too young"] ∧
    ("too young" : String) ≠ "" := by
  refine ⟨rfl, rfl, rfl, by decide⟩

/-- Claim C5, amended: on a form whose own `validated` flag is true and
whose field `F` declares a validator and carries a non-empty message,
`set(F, newValue)` does not unconditionally empty the message: it sets the
message to the validator's result on `newValue` (and the updated form), so
the message is empty exactly when `newValue` passes the validator. -/
theorem claim_C5 (d : FormData V) (i : Nat) (v : JSVal V) (o : FieldOption V)
    (f : Field V) (vl : JSVal V → FormView V → String)
    (h : d.fields[i]? = some (o, f)) (hvl : o.validate = some vl)
    (hval : d.validated = true) (_hmsg : f.validation ≠ "") :
    ((d.set i v).1.fields[i]?).map (fun q => q.2.validation) =
      some (vl v (mkView (d.fields.set i (o, { f with value := v }))
        d.validated d.readOnly)) :=
  (claim_C6 d i v o f h).2.1 vl hvl hval

/-- Claim C5, witness: the amended theorem applied to the concrete form
`c5data`, key `0`, new value `10`; the recomputed message is the
validator's result `"too young"`. -/
theorem claim_C5_witness :
    c5data.fields[0]? = some (c5opt, { value := .val 0, validation := "too young" }) ∧
    c5opt.validate = some c5validator ∧
    c5data.validated = true ∧
    ("too young" : String) ≠ "" ∧
    ((c5data.set 0 (.val 10)).1.fields[0]?).map (fun q => q.2.validation) =
      some (c5validator (.val 10)
        (mkView (c5data.fields.set 0
            (c5opt, { value := .val 10, validation := "too young" }))
          c5data.validated c5data.readOnly)) :=
  ⟨rfl, rfl, rfl, by decide,
    claim_C5 c5data 0 (.val 10) c5opt
      { value := .val 0, validation := "too young" } c5validator rfl rfl rfl
      (by decide)⟩

/-- Claim C9: `remove(form)` filters the reference-equal member out of the
collection's `_forms` (a no-op when no member is reference-equal) and leaves
the parent's `_childs` untouched, so a removed member that was registered as
the parent's child stays registered there. -/
theorem claim_C9 (s : FormCollectionState) (fid : Nat) :
    (s.remove fid).parentChilds = s.parentChilds ∧
    (s.remove fid).members = s.members.filter (fun j => j ≠ fid) ∧
    fid ∉ (s.remove fid).members ∧
    (fid ∉ s.members → (s.remove fid).members = s.members) ∧
    (fid ∈ s.parentChilds → fid ∈ (s.remove fid).parentChilds) := by
  refine ⟨rfl, rfl, ?_, fun hni => ?_, fun hmem => hmem⟩
  · intro hmem
    rcases List.mem_filter.mp hmem with ⟨-, hne⟩
    simp at hne
  · show s.members.filter (fun j => j ≠ fid) = s.members
    rw [List.filter_eq_self]
    intro a ha
    have hne : a ≠ fid := fun heq => hni (heq ▸ ha)
    simp [hne]

/-- Claim C9, witness: the theorem applied to the collection state whose
parent registers children `5, 7` and whose member list is `[7]`, removing
member `7`. -/
theorem claim_C9_witness :
    (FormCollectionState.remove ⟨[5, 7], [7]⟩ 7).parentChilds = [5, 7] ∧
    7 ∉ (FormCollectionState.remove ⟨[5, 7], [7]⟩ 7).members ∧
    7 ∈ (FormCollectionState.remove ⟨[5, 7], [7]⟩ 7).parentChilds :=
  ⟨(claim_C9 ⟨[5, 7], [7]⟩ 7).1, (claim_C9 ⟨[5, 7], [7]⟩ 7).2.2.1,
    (claim_C9 ⟨[5, 7], [7]⟩ 7).2.2.2.2 (by decide)⟩

end Forms
